import Mathlib

/-!
Shallow embedding of `src/gui/fetch_launcher_assets.py`, the launcher-asset
syncer of tera-launcher-for-linux.

The script reads a JSON configuration, and for each listed asset that is not
already present under the output directory, downloads it from
`base_url.rstrip('/') + '/' + asset`, retrying once against
`base_url.rstrip('/') + '/en/' + asset` before failing fatally.

Modelling conventions:
* The filesystem is a pair of association lists (files with contents, and a
  set of existing directories).  Paths are the literal strings the program
  computes; the model does not identify aliases such as `a//b` and `a/b`.
* The network is an oracle `Net : String → Except String String`: a GET of a
  URL either yields the response body or an error message (the text of the
  Python exception).
* Every observable action (HTTP request, file write, directory creation,
  print) is recorded in an event trace.  A `deleteFile` event exists in the
  event type so that frame properties are expressible; the program never
  emits one, mirroring the absence of any deletion call in the source.
* JSON values parsed by `json.load` are modelled by `JValue`; `config.get`
  with its Python truthiness test and `isinstance(assets, list)` check are
  translated literally.  An uncaught Python exception (e.g. `AttributeError`
  from calling `.get` or `.rstrip` on a non-dict / non-string, or `TypeError`
  from `os.path.join` on a non-string asset) terminates the process with a
  nonzero status; the model renders those as a fatal outcome with exit code 1.
* `os.makedirs(p, exist_ok=True)` is modelled as creating every missing
  component-prefix directory of `p` (its success path); directory-creation
  failure (OSError) is not modelled, and neither is the argument-count check
  on `sys.argv`, which no claim concerns.
-/

namespace FetchAssets

/-- JSON values as produced by `json.load`. -/
inductive JValue where
  | null : JValue
  | bool (b : Bool) : JValue
  | num (n : Int) : JValue
  | str (s : String) : JValue
  | arr (items : List JValue) : JValue
  | obj (fields : List (String × JValue)) : JValue
deriving Repr

/-- The modelled filesystem: files (path, content) and existing directories. -/
structure FS where
  files : List (String × String)
  dirs : List String
deriving Repr, DecidableEq

/-- Observable actions of the program, in order of occurrence. -/
inductive Event where
  | request (url : String) (headers : List (String × String)) : Event
  | writeFile (path : String) (content : String) : Event
  | mkdir (path : String) : Event
  | deleteFile (path : String) : Event
  | print (msg : String) : Event
deriving Repr, DecidableEq

/-- The network oracle: a GET of a URL (always sent with `CUSTOM_HEADERS`)
returns the body, or an error message when the request raises. -/
def Net : Type := String → Except String String

/-- The `CUSTOM_HEADERS` constant of the script. -/
def CUSTOM_HEADERS : List (String × String) :=
  [("User-Agent", "Mozilla/5.0 (X11; Linux x86_64; rv:134.0) Gecko/20100101 Firefox/134.0"),
   ("Accept", "image/avif,image/webp,image/png,image/svg+xml,image/*;q=0.8,*/*;q=0.5"),
   ("Accept-Language", "en-US,en;q=0.5"),
   ("Accept-Encoding", "gzip, deflate"),
   ("Connection", "keep-alive"),
   ("Priority", "u=5")]

def fileExists (fs : FS) (p : String) : Bool :=
  fs.files.any (fun kv => kv.1 = p)

def dirExists (fs : FS) (p : String) : Bool :=
  fs.dirs.any (fun q => q = p)

/-- `os.path.exists`: true if a file or a directory exists at `p`. -/
def pathExists (fs : FS) (p : String) : Bool :=
  fileExists fs p || dirExists fs p

def lookupFile (fs : FS) (p : String) : Option String :=
  (fs.files.find? (fun kv => kv.1 = p)).map (fun kv => kv.2)

/-- `open(p, 'wb')` followed by a full write: the new entry shadows any
older one for the same path. -/
def setFile (fs : FS) (p c : String) : FS :=
  { fs with files := (p, c) :: fs.files }

/-- Does the string start with `'/'` (Python `s.startswith('/')`)? -/
def headIsSlash (s : String) : Bool :=
  match s.data with
  | [] => false
  | c :: _ => c = '/'

/-- Does the string end with `'/'` (Python `s.endswith('/')`)? -/
def lastIsSlash (s : String) : Bool :=
  match s.data.getLast? with
  | some c => c = '/'
  | none => false

/-- `os.path.join(a, b)` for POSIX paths, two arguments. -/
def joinPath (a b : String) : String :=
  if headIsSlash b then b
  else if a = "" then b
  else if lastIsSlash a then a ++ b
  else a ++ "/" ++ b

/-- Split on `'/'` (the single-separator case of `str.split`). -/
def splitSlashAux : List Char → List Char → List String
  | [], acc => [⟨acc.reverse⟩]
  | c :: rest, acc =>
      if c = '/' then ⟨acc.reverse⟩ :: splitSlashAux rest []
      else splitSlashAux rest (c :: acc)

/-- The `'/'`-separated components of a path. -/
def splitSlash (s : String) : List String :=
  splitSlashAux s.data []

/-- Join components back with `'/'` separators. -/
def joinSlash : List String → String
  | [] => ""
  | [p] => p
  | p :: rest => p ++ "/" ++ joinSlash rest

/-- `posixpath.dirname` on the underlying character list. -/
def dirnameAux (l : List Char) : List Char :=
  let revHead := l.reverse.dropWhile (fun c => c ≠ '/')
  if revHead.all (fun c => c = '/') then revHead.reverse
  else (revHead.dropWhile (fun c => c = '/')).reverse

/-- `os.path.dirname(p)`: everything before the last `/`, with trailing
slashes stripped unless the result is all slashes. -/
def dirname (p : String) : String :=
  ⟨dirnameAux p.data⟩

/-- `base_url.rstrip('/')`. -/
def rstripSlash (s : String) : String :=
  ⟨(s.data.reverse.dropWhile (fun c => c = '/')).reverse⟩

/-- The primary download URL: `base_url.rstrip('/') + '/' + asset`. -/
def primaryUrl (b a : String) : String :=
  rstripSlash b ++ "/" ++ a

/-- The fallback download URL: `base_url.rstrip('/') + '/en/' + asset`. -/
def fallbackUrl (b a : String) : String :=
  rstripSlash b ++ "/en/" ++ a

/-- The component-prefixes of `p` that `os.makedirs` ensures exist, outermost
first and ending with `p` itself. -/
def prefixPaths (p : String) : List String :=
  let comps := splitSlash p
  ((List.range (comps.length - 1)).map
    (fun i => joinSlash (comps.take (i + 1)))) ++ [p]

/-- Create one directory if it is absent (the `exist_ok=True` behaviour);
the empty path is skipped. -/
def mkdirOne (st : FS × List Event) (q : String) : FS × List Event :=
  if q = "" || dirExists st.1 q then st
  else ({ st.1 with dirs := q :: st.1.dirs }, st.2 ++ [Event.mkdir q])

/-- `os.makedirs(p, exist_ok=True)`: create every missing component-prefix
directory of `p` (success path). -/
def makedirs (fs : FS) (p : String) : FS × List Event :=
  (prefixPaths p).foldl mkdirOne (fs, [])

/-- `download_asset(url, dest_path)`: GET `url` with `CUSTOM_HEADERS`; on
success write the full body to `dest`; on failure return the exception
message (third component `some e`). -/
def download_asset (net : Net) (url dest : String) (fs : FS) :
    FS × List Event × Option String :=
  match net url with
  | Except.ok body =>
      (setFile fs dest body,
       [Event.request url CUSTOM_HEADERS, Event.writeFile dest body], none)
  | Except.error e =>
      (fs, [Event.request url CUSTOM_HEADERS], some e)

/-- Outcome of a run segment: continue normally, or terminate the process
with exit status 1 (`sys.exit(1)` or an uncaught exception). -/
inductive StepResult where
  | ok (fs : FS) (events : List Event) : StepResult
  | fatal (fs : FS) (events : List Event) : StepResult
deriving Repr, DecidableEq

/-- One iteration of the per-asset loop of `main`.  A non-string asset makes
`os.path.join` raise `TypeError`; a non-string `base_url` reaching
`.rstrip` raises `AttributeError`; both uncaught, hence fatal. -/
def processAsset (net : Net) (outDir : String) (baseUrl : JValue)
    (asset : JValue) (fs : FS) : StepResult :=
  match asset with
  | JValue.str a =>
      let dest := joinPath outDir a
      let st1 := makedirs fs (dirname dest)
      if pathExists st1.1 dest then StepResult.ok st1.1 st1.2
      else
        match baseUrl with
        | JValue.str b =>
            let url1 := primaryUrl b a
            let evs2 := st1.2 ++
              [Event.print ("Downloading " ++ a ++ " from " ++ url1 ++ "...")]
            match download_asset net url1 dest st1.1 with
            | (fs2, evsD, none) => StepResult.ok fs2 (evs2 ++ evsD)
            | (_, evsD, some e) =>
                let url2 := fallbackUrl b a
                let evs3 := evs2 ++ evsD ++
                  [Event.print ("First attempt failed: " ++ e),
                   Event.print ("Trying again from " ++ url2 ++ "...")]
                match download_asset net url2 dest st1.1 with
                | (fs3, evsD2, none) => StepResult.ok fs3 (evs3 ++ evsD2)
                | (fs3, evsD2, some e2) =>
                    StepResult.fatal fs3 (evs3 ++ evsD2 ++
                      [Event.print ("Failed to download " ++ url2 ++ ": " ++ e2)])
        | _ => StepResult.fatal st1.1 st1.2
  | _ => StepResult.fatal fs []

/-- The `for asset in assets:` loop. -/
def processAssets (net : Net) (outDir : String) (baseUrl : JValue)
    (assets : List JValue) (fs : FS) : StepResult :=
  match assets with
  | [] => StepResult.ok fs []
  | a :: rest =>
      match processAsset net outDir baseUrl a fs with
      | StepResult.fatal fs1 evs1 => StepResult.fatal fs1 evs1
      | StepResult.ok fs1 evs1 =>
          match processAssets net outDir baseUrl rest fs1 with
          | StepResult.ok fs2 evs2 => StepResult.ok fs2 (evs1 ++ evs2)
          | StepResult.fatal fs2 evs2 => StepResult.fatal fs2 (evs1 ++ evs2)

/-- `config.get(k)` on the parsed JSON object (keys assumed distinct, as
`json.load` keeps one binding per key). -/
def dictGet (fields : List (String × JValue)) (k : String) : Option JValue :=
  (fields.find? (fun kv => kv.1 = k)).map (fun kv => kv.2)

/-- Python truthiness of a JSON value, as tested by `if not base_url`. -/
def jtruthy : JValue → Bool
  | JValue.null => false
  | JValue.bool b => b
  | JValue.num n => n ≠ 0
  | JValue.str s => s ≠ ""
  | JValue.arr items => ¬ items.isEmpty
  | JValue.obj fields => ¬ fields.isEmpty

/-- Truthiness of `config.get(...)`, whose result may be `None` (absent key). -/
def truthyOpt : Option JValue → Bool
  | none => false
  | some v => jtruthy v

/-- `isinstance(v, list)`. -/
def isArr : JValue → Bool
  | JValue.arr _ => true
  | _ => false

def urlKey : String := "public_launcher_assets_url"
def assetsKey : String := "public_launcher_assets"

/-- Final state of a run of `main`: filesystem, event trace, exit status. -/
structure RunResult where
  fs : FS
  events : List Event
  exitCode : Nat
deriving Repr, DecidableEq

/-- The `if not os.path.exists(dir): os.makedirs(dir)` step of `main`. -/
def ensureDir (fs : FS) (p : String) : FS × List Event :=
  if pathExists fs p then (fs, []) else makedirs fs p

/-- `main`, after argument parsing: `cfg` is the result of reading and JSON-
parsing the config file (`Except.error e` when that raised).  A parsed value
that is not a JSON object makes `config.get` raise `AttributeError`
(uncaught, exit 1, no message printed by the script itself). -/
def run (net : Net) (fs0 : FS) (outDir cfgPath : String)
    (cfg : Except String JValue) : RunResult :=
  let st1 := ensureDir fs0 outDir
  match cfg with
  | Except.error e =>
      ⟨st1.1, st1.2 ++ [Event.print ("Failed to load " ++ cfgPath ++ ": " ++ e)], 1⟩
  | Except.ok (JValue.obj fields) =>
      let buOpt := dictGet fields urlKey
      let assetsV := (dictGet fields assetsKey).getD (JValue.arr [])
      match buOpt, assetsV with
      | some bu, JValue.arr items =>
          if jtruthy bu then
            match processAssets net outDir bu items st1.1 with
            | StepResult.ok fs2 evs2 =>
                ⟨fs2, st1.2 ++ evs2 ++
                  [Event.print "All launcher assets are up-to-date."], 0⟩
            | StepResult.fatal fs2 evs2 => ⟨fs2, st1.2 ++ evs2, 1⟩
          else
            ⟨st1.1, st1.2 ++
              [Event.print "Invalid configuration in launcher-config.json"], 1⟩
      | _, _ =>
          ⟨st1.1, st1.2 ++
            [Event.print "Invalid configuration in launcher-config.json"], 1⟩
  | Except.ok _ => ⟨st1.1, st1.2, 1⟩

/-- The URLs of the HTTP requests in a trace, in order. -/
def requestUrls (evs : List Event) : List String :=
  evs.filterMap (fun ev => match ev with
    | Event.request u _ => some u
    | _ => none)

/-- The full request events in a trace, in order. -/
def requestsOf (evs : List Event) : List Event :=
  evs.filter (fun ev => match ev with
    | Event.request _ _ => true
    | _ => false)

/-- The file writes (path, content) in a trace, in order. -/
def writesOf (evs : List Event) : List (String × String) :=
  evs.filterMap (fun ev => match ev with
    | Event.writeFile p c => some (p, c)
    | _ => none)

/-- The deletions in a trace (always empty for this program). -/
def deletesOf (evs : List Event) : List String :=
  evs.filterMap (fun ev => match ev with
    | Event.deleteFile p => some p
    | _ => none)

/-- Growth order on filesystems: every existing file and directory persists. -/
def FSle (fs fs' : FS) : Prop :=
  (∀ p, fileExists fs p = true → fileExists fs' p = true) ∧
  (∀ p, dirExists fs p = true → dirExists fs' p = true)

/-- The filesystem component of a step outcome. -/
def stepFS : StepResult → FS
  | StepResult.ok fs _ => fs
  | StepResult.fatal fs _ => fs

/-- The event trace of a step outcome. -/
def stepEvents : StepResult → List Event
  | StepResult.ok _ e => e
  | StepResult.fatal _ e => e

/-- The validation test of `main`: `base_url` present and truthy, and
`assets` (defaulting to `[]`) a list. -/
def configValid (fields : List (String × JValue)) : Bool :=
  match dictGet fields urlKey, (dictGet fields assetsKey).getD (JValue.arr []) with
  | some bu, JValue.arr _ => jtruthy bu
  | _, _ => false

/-! ### Basic invariants of the filesystem operations -/

theorem fsle_refl (fs : FS) : FSle fs fs :=
  ⟨fun _ h => h, fun _ h => h⟩

theorem fsle_trans {a b c : FS} (h1 : FSle a b) (h2 : FSle b c) : FSle a c :=
  ⟨fun p h => h2.1 p (h1.1 p h), fun p h => h2.2 p (h1.2 p h)⟩

theorem pathExists_mono {fs fs' : FS} (h : FSle fs fs') {p : String}
    (hp : pathExists fs p = true) : pathExists fs' p = true := by
  simp only [pathExists, Bool.or_eq_true] at hp ⊢
  rcases hp with hp | hp
  · exact Or.inl (h.1 p hp)
  · exact Or.inr (h.2 p hp)

theorem fsle_setFile (fs : FS) (p c : String) : FSle fs (setFile fs p c) := by
  constructor
  · intro q hq
    simp only [fileExists, setFile, List.any_cons, Bool.or_eq_true] at hq ⊢
    exact Or.inr hq
  · intro q hq
    exact hq

theorem fileExists_setFile_self (fs : FS) (p c : String) :
    fileExists (setFile fs p c) p = true := by
  simp [fileExists, setFile]

theorem lookupFile_setFile_ne (fs : FS) {p q : String} (h : p ≠ q) (c : String) :
    lookupFile (setFile fs p c) q = lookupFile fs q := by
  simp [lookupFile, setFile, List.find?, h]

theorem mkdirOne_files (st : FS × List Event) (q : String) :
    (mkdirOne st q).1.files = st.1.files := by
  unfold mkdirOne
  split <;> rfl

theorem mkdirOne_dirs_mono (st : FS × List Event) (q p : String)
    (h : dirExists st.1 p = true) : dirExists (mkdirOne st q).1 p = true := by
  unfold mkdirOne
  split
  · exact h
  · simp only [dirExists, List.any_cons, Bool.or_eq_true]
    exact Or.inr (by simpa [dirExists] using h)

theorem mkdirOne_creates (st : FS × List Event) (q : String) (hq : q ≠ "") :
    dirExists (mkdirOne st q).1 q = true := by
  unfold mkdirOne
  split
  · next h =>
    rcases Bool.or_eq_true _ _ |>.mp h with h1 | h2
    · exact absurd (by simpa using h1) hq
    · exact h2
  · simp [dirExists]

theorem foldl_mkdirOne_files (qs : List String) (st : FS × List Event) :
    ((qs.foldl mkdirOne st).1).files = st.1.files := by
  induction qs generalizing st with
  | nil => rfl
  | cons q rest ih =>
    rw [List.foldl_cons, ih, mkdirOne_files]

theorem foldl_mkdirOne_dirs_mono (qs : List String) (st : FS × List Event)
    (p : String) (h : dirExists st.1 p = true) :
    dirExists ((qs.foldl mkdirOne st).1) p = true := by
  induction qs generalizing st with
  | nil => exact h
  | cons q rest ih =>
    rw [List.foldl_cons]
    exact ih _ (mkdirOne_dirs_mono st q p h)

theorem makedirs_files (fs : FS) (p : String) :
    ((makedirs fs p).1).files = fs.files := by
  unfold makedirs
  exact foldl_mkdirOne_files _ _

theorem fsle_makedirs (fs : FS) (p : String) : FSle fs (makedirs fs p).1 := by
  constructor
  · intro q hq
    simpa [fileExists, makedirs_files] using hq
  · intro q hq
    unfold makedirs
    exact foldl_mkdirOne_dirs_mono _ _ _ hq

theorem makedirs_creates_self (fs : FS) (p : String) (hp : p ≠ "") :
    dirExists (makedirs fs p).1 p = true := by
  unfold makedirs prefixPaths
  rw [List.foldl_append, List.foldl_cons, List.foldl_nil]
  exact mkdirOne_creates _ _ hp

theorem mkdirOne_requestUrls (st : FS × List Event) (q : String) :
    requestUrls (mkdirOne st q).2 = requestUrls st.2 := by
  unfold mkdirOne
  split
  · rfl
  · simp [requestUrls]

theorem mkdirOne_writesOf (st : FS × List Event) (q : String) :
    writesOf (mkdirOne st q).2 = writesOf st.2 := by
  unfold mkdirOne
  split
  · rfl
  · simp [writesOf]

theorem mkdirOne_deletesOf (st : FS × List Event) (q : String) :
    deletesOf (mkdirOne st q).2 = deletesOf st.2 := by
  unfold mkdirOne
  split
  · rfl
  · simp [deletesOf]

theorem foldl_mkdirOne_requestUrls (qs : List String) (st : FS × List Event) :
    requestUrls ((qs.foldl mkdirOne st).2) = requestUrls st.2 := by
  induction qs generalizing st with
  | nil => rfl
  | cons q rest ih => rw [List.foldl_cons, ih, mkdirOne_requestUrls]

theorem foldl_mkdirOne_writesOf (qs : List String) (st : FS × List Event) :
    writesOf ((qs.foldl mkdirOne st).2) = writesOf st.2 := by
  induction qs generalizing st with
  | nil => rfl
  | cons q rest ih => rw [List.foldl_cons, ih, mkdirOne_writesOf]

theorem foldl_mkdirOne_deletesOf (qs : List String) (st : FS × List Event) :
    deletesOf ((qs.foldl mkdirOne st).2) = deletesOf st.2 := by
  induction qs generalizing st with
  | nil => rfl
  | cons q rest ih => rw [List.foldl_cons, ih, mkdirOne_deletesOf]

theorem makedirs_requestUrls (fs : FS) (p : String) :
    requestUrls (makedirs fs p).2 = [] := by
  unfold makedirs
  rw [foldl_mkdirOne_requestUrls]
  rfl

theorem makedirs_writesOf (fs : FS) (p : String) :
    writesOf (makedirs fs p).2 = [] := by
  unfold makedirs
  rw [foldl_mkdirOne_writesOf]
  rfl

theorem makedirs_deletesOf (fs : FS) (p : String) :
    deletesOf (makedirs fs p).2 = [] := by
  unfold makedirs
  rw [foldl_mkdirOne_deletesOf]
  rfl

theorem ensureDir_le (fs : FS) (p : String) : FSle fs (ensureDir fs p).1 := by
  unfold ensureDir
  split
  · exact fsle_refl fs
  · exact fsle_makedirs fs p

theorem ensureDir_requestUrls (fs : FS) (p : String) :
    requestUrls (ensureDir fs p).2 = [] := by
  unfold ensureDir
  split
  · rfl
  · exact makedirs_requestUrls fs p

theorem ensureDir_writesOf (fs : FS) (p : String) :
    writesOf (ensureDir fs p).2 = [] := by
  unfold ensureDir
  split
  · rfl
  · exact makedirs_writesOf fs p

theorem ensureDir_deletesOf (fs : FS) (p : String) :
    deletesOf (ensureDir fs p).2 = [] := by
  unfold ensureDir
  split
  · rfl
  · exact makedirs_deletesOf fs p

theorem requestUrls_append (a b : List Event) :
    requestUrls (a ++ b) = requestUrls a ++ requestUrls b := by
  simp [requestUrls]

theorem writesOf_append (a b : List Event) :
    writesOf (a ++ b) = writesOf a ++ writesOf b := by
  simp [writesOf]

theorem deletesOf_append (a b : List Event) :
    deletesOf (a ++ b) = deletesOf a ++ deletesOf b := by
  simp [deletesOf]

/-! ### Characterizations of the per-asset step -/

theorem processAsset_skip (net : Net) (outDir : String) (bu : JValue)
    (a : String) (fs : FS)
    (hex : pathExists (makedirs fs (dirname (joinPath outDir a))).1
      (joinPath outDir a) = true) :
    processAsset net outDir bu (JValue.str a) fs =
      StepResult.ok (makedirs fs (dirname (joinPath outDir a))).1
        (makedirs fs (dirname (joinPath outDir a))).2 := by
  simp [processAsset, hex]

theorem processAsset_download_primary (net : Net) (outDir b a body : String)
    (fs : FS)
    (hex : pathExists (makedirs fs (dirname (joinPath outDir a))).1
      (joinPath outDir a) = false)
    (hnet : net (primaryUrl b a) = Except.ok body) :
    processAsset net outDir (JValue.str b) (JValue.str a) fs =
      StepResult.ok
        (setFile (makedirs fs (dirname (joinPath outDir a))).1
          (joinPath outDir a) body)
        ((makedirs fs (dirname (joinPath outDir a))).2 ++
          [Event.print ("Downloading " ++ a ++ " from " ++ primaryUrl b a ++ "..."),
           Event.request (primaryUrl b a) CUSTOM_HEADERS,
           Event.writeFile (joinPath outDir a) body]) := by
  simp [processAsset, hex, download_asset, hnet]

theorem processAsset_download_fallback (net : Net) (outDir b a e body : String)
    (fs : FS)
    (hex : pathExists (makedirs fs (dirname (joinPath outDir a))).1
      (joinPath outDir a) = false)
    (h1 : net (primaryUrl b a) = Except.error e)
    (h2 : net (fallbackUrl b a) = Except.ok body) :
    processAsset net outDir (JValue.str b) (JValue.str a) fs =
      StepResult.ok
        (setFile (makedirs fs (dirname (joinPath outDir a))).1
          (joinPath outDir a) body)
        ((makedirs fs (dirname (joinPath outDir a))).2 ++
          [Event.print ("Downloading " ++ a ++ " from " ++ primaryUrl b a ++ "..."),
           Event.request (primaryUrl b a) CUSTOM_HEADERS,
           Event.print ("First attempt failed: " ++ e),
           Event.print ("Trying again from " ++ fallbackUrl b a ++ "..."),
           Event.request (fallbackUrl b a) CUSTOM_HEADERS,
           Event.writeFile (joinPath outDir a) body]) := by
  simp [processAsset, hex, download_asset, h1, h2]

theorem processAsset_download_fail (net : Net) (outDir b a e e2 : String)
    (fs : FS)
    (hex : pathExists (makedirs fs (dirname (joinPath outDir a))).1
      (joinPath outDir a) = false)
    (h1 : net (primaryUrl b a) = Except.error e)
    (h2 : net (fallbackUrl b a) = Except.error e2) :
    processAsset net outDir (JValue.str b) (JValue.str a) fs =
      StepResult.fatal (makedirs fs (dirname (joinPath outDir a))).1
        ((makedirs fs (dirname (joinPath outDir a))).2 ++
          [Event.print ("Downloading " ++ a ++ " from " ++ primaryUrl b a ++ "..."),
           Event.request (primaryUrl b a) CUSTOM_HEADERS,
           Event.print ("First attempt failed: " ++ e),
           Event.print ("Trying again from " ++ fallbackUrl b a ++ "..."),
           Event.request (fallbackUrl b a) CUSTOM_HEADERS,
           Event.print ("Failed to download " ++ fallbackUrl b a ++ ": " ++ e2)]) := by
  simp [processAsset, hex, download_asset, h1, h2]

theorem processAsset_base_nonstr (net : Net) (outDir : String) (bu : JValue)
    (a : String) (fs : FS)
    (hbu : ∀ s, bu ≠ JValue.str s)
    (hex : pathExists (makedirs fs (dirname (joinPath outDir a))).1
      (joinPath outDir a) = false) :
    processAsset net outDir bu (JValue.str a) fs =
      StepResult.fatal (makedirs fs (dirname (joinPath outDir a))).1
        (makedirs fs (dirname (joinPath outDir a))).2 := by
  cases bu with
  | str s => exact absurd rfl (hbu s)
  | null => simp [processAsset, hex]
  | bool b => simp [processAsset, hex]
  | num n => simp [processAsset, hex]
  | arr items => simp [processAsset, hex]
  | obj fields => simp [processAsset, hex]

theorem processAsset_asset_nonstr (net : Net) (outDir : String) (bu : JValue)
    (v : JValue) (fs : FS) (hv : ∀ s, v ≠ JValue.str s) :
    processAsset net outDir bu v fs = StepResult.fatal fs [] := by
  cases v with
  | str s => exact absurd rfl (hv s)
  | null => simp [processAsset]
  | bool b => simp [processAsset]
  | num n => simp [processAsset]
  | arr items => simp [processAsset]
  | obj fields => simp [processAsset]

/-! ### Loop-level lemmas -/

theorem fileExists_makedirs (fs : FS) (q p : String) :
    fileExists (makedirs fs q).1 p = fileExists fs p := by
  unfold fileExists
  rw [makedirs_files]

theorem lookupFile_makedirs (fs : FS) (q p : String) :
    lookupFile (makedirs fs q).1 p = lookupFile fs p := by
  unfold lookupFile
  rw [makedirs_files]

theorem processAssets_append (net : Net) (outDir : String) (bu : JValue)
    (xs ys : List JValue) (fs : FS) :
    processAssets net outDir bu (xs ++ ys) fs =
      match processAssets net outDir bu xs fs with
      | StepResult.ok fs1 evs1 =>
          match processAssets net outDir bu ys fs1 with
          | StepResult.ok fs2 evs2 => StepResult.ok fs2 (evs1 ++ evs2)
          | StepResult.fatal fs2 evs2 => StepResult.fatal fs2 (evs1 ++ evs2)
      | StepResult.fatal fs1 evs1 => StepResult.fatal fs1 evs1 := by
  induction xs generalizing fs with
  | nil =>
      simp only [List.nil_append, processAssets]
      cases processAssets net outDir bu ys fs <;> simp
  | cons v rest ih =>
      simp only [List.cons_append, processAssets]
      cases processAsset net outDir bu v fs with
      | fatal fs1 evs1 => rfl
      | ok fs1 evs1 =>
          dsimp only
          rw [show rest.append ys = rest ++ ys from rfl, ih]
          cases processAssets net outDir bu rest fs1 with
          | fatal fs2 evs2 => rfl
          | ok fs2 evs2 =>
              cases hy : processAssets net outDir bu ys fs2 <;> simp [hy]

theorem processAsset_ok_le (net : Net) (outDir : String) (bu v : JValue)
    (fs fs' : FS) (evs : List Event)
    (h : processAsset net outDir bu v fs = StepResult.ok fs' evs) :
    FSle fs fs' := by
  cases v with
  | null => rw [processAsset_asset_nonstr net outDir bu _ fs
      (fun s hs => JValue.noConfusion hs)] at h; exact StepResult.noConfusion h
  | bool b => rw [processAsset_asset_nonstr net outDir bu _ fs
      (fun s hs => JValue.noConfusion hs)] at h; exact StepResult.noConfusion h
  | num n => rw [processAsset_asset_nonstr net outDir bu _ fs
      (fun s hs => JValue.noConfusion hs)] at h; exact StepResult.noConfusion h
  | arr items => rw [processAsset_asset_nonstr net outDir bu _ fs
      (fun s hs => JValue.noConfusion hs)] at h; exact StepResult.noConfusion h
  | obj fields => rw [processAsset_asset_nonstr net outDir bu _ fs
      (fun s hs => JValue.noConfusion hs)] at h; exact StepResult.noConfusion h
  | str a =>
      by_cases hex : pathExists (makedirs fs (dirname (joinPath outDir a))).1
        (joinPath outDir a) = true
      · rw [processAsset_skip net outDir bu a fs hex] at h
        cases h
        exact fsle_makedirs fs _
      · have hex' : pathExists (makedirs fs (dirname (joinPath outDir a))).1
            (joinPath outDir a) = false := by
          simpa using hex
        cases bu with
        | str b =>
            cases hnet : net (primaryUrl b a) with
            | ok body =>
                rw [processAsset_download_primary net outDir b a body fs hex' hnet] at h
                cases h
                exact fsle_trans (fsle_makedirs fs _) (fsle_setFile _ _ _)
            | error e =>
                cases hnet2 : net (fallbackUrl b a) with
                | ok body =>
                    rw [processAsset_download_fallback net outDir b a e body fs
                      hex' hnet hnet2] at h
                    cases h
                    exact fsle_trans (fsle_makedirs fs _) (fsle_setFile _ _ _)
                | error e2 =>
                    rw [processAsset_download_fail net outDir b a e e2 fs
                      hex' hnet hnet2] at h
                    exact StepResult.noConfusion h
        | null => rw [processAsset_base_nonstr net outDir _ a fs
            (fun s hs => JValue.noConfusion hs) hex'] at h
                  exact StepResult.noConfusion h
        | bool c => rw [processAsset_base_nonstr net outDir _ a fs
            (fun s hs => JValue.noConfusion hs) hex'] at h
                    exact StepResult.noConfusion h
        | num n => rw [processAsset_base_nonstr net outDir _ a fs
            (fun s hs => JValue.noConfusion hs) hex'] at h
                   exact StepResult.noConfusion h
        | arr items => rw [processAsset_base_nonstr net outDir _ a fs
            (fun s hs => JValue.noConfusion hs) hex'] at h
                       exact StepResult.noConfusion h
        | obj fields => rw [processAsset_base_nonstr net outDir _ a fs
            (fun s hs => JValue.noConfusion hs) hex'] at h
                        exact StepResult.noConfusion h

theorem processAssets_ok_le (net : Net) (outDir : String) (bu : JValue)
    (items : List JValue) (fs fs' : FS) (evs : List Event)
    (h : processAssets net outDir bu items fs = StepResult.ok fs' evs) :
    FSle fs fs' := by
  induction items generalizing fs evs with
  | nil =>
      simp only [processAssets] at h
      cases h
      exact fsle_refl _
  | cons v rest ih =>
      simp only [processAssets] at h
      cases hv : processAsset net outDir bu v fs with
      | fatal fs1 evs1 => rw [hv] at h; exact StepResult.noConfusion h
      | ok fs1 evs1 =>
          rw [hv] at h
          dsimp only at h
          cases hr : processAssets net outDir bu rest fs1 with
          | fatal fs2 evs2 => rw [hr] at h; exact StepResult.noConfusion h
          | ok fs2 evs2 =>
              rw [hr] at h
              cases h
              exact fsle_trans (processAsset_ok_le net outDir bu v fs fs1 evs1 hv)
                (ih fs1 evs2 hr)

/-- Frame facts about one per-asset step, over every branch: it deletes
nothing, only ever writes to the asset's own destination path, and leaves
the content of every pre-existing file unchanged. -/
theorem processAsset_facts (net : Net) (outDir : String) (bu v : JValue)
    (fs : FS) :
    deletesOf (stepEvents (processAsset net outDir bu v fs)) = [] ∧
    (∀ pc ∈ writesOf (stepEvents (processAsset net outDir bu v fs)),
      ∃ a body, v = JValue.str a ∧ pc = (joinPath outDir a, body)) ∧
    (∀ p, fileExists fs p = true →
      lookupFile (stepFS (processAsset net outDir bu v fs)) p = lookupFile fs p) := by
  cases v with
  | null => rw [processAsset_asset_nonstr net outDir bu _ fs
      (fun s hs => JValue.noConfusion hs)]
            simp [stepEvents, stepFS, writesOf, deletesOf]
  | bool b => rw [processAsset_asset_nonstr net outDir bu _ fs
      (fun s hs => JValue.noConfusion hs)]
              simp [stepEvents, stepFS, writesOf, deletesOf]
  | num n => rw [processAsset_asset_nonstr net outDir bu _ fs
      (fun s hs => JValue.noConfusion hs)]
             simp [stepEvents, stepFS, writesOf, deletesOf]
  | arr items => rw [processAsset_asset_nonstr net outDir bu _ fs
      (fun s hs => JValue.noConfusion hs)]
                 simp [stepEvents, stepFS, writesOf, deletesOf]
  | obj fields => rw [processAsset_asset_nonstr net outDir bu _ fs
      (fun s hs => JValue.noConfusion hs)]
                  simp [stepEvents, stepFS, writesOf, deletesOf]
  | str a =>
      by_cases hex : pathExists (makedirs fs (dirname (joinPath outDir a))).1
        (joinPath outDir a) = true
      · rw [processAsset_skip net outDir bu a fs hex]
        refine ⟨?_, ?_, ?_⟩
        · simpa [stepEvents] using makedirs_deletesOf fs (dirname (joinPath outDir a))
        · intro pc hpc
          simp [stepEvents, makedirs_writesOf] at hpc
        · intro p hp
          simp [stepFS, lookupFile_makedirs]
      · have hex' : pathExists (makedirs fs (dirname (joinPath outDir a))).1
            (joinPath outDir a) = false := by simpa using hex
        have hne : ∀ p, fileExists fs p = true → joinPath outDir a ≠ p := by
          intro p hp hcontra
          have hfe : fileExists (makedirs fs (dirname (joinPath outDir a))).1
              (joinPath outDir a) = true := by
            rw [fileExists_makedirs, hcontra]; exact hp
          simp [pathExists, hfe] at hex'
        cases bu with
        | str b =>
            cases hnet : net (primaryUrl b a) with
            | ok body =>
                rw [processAsset_download_primary net outDir b a body fs hex' hnet]
                refine ⟨?_, ?_, ?_⟩
                · simp only [stepEvents]
                  rw [deletesOf_append, makedirs_deletesOf]
                  rfl
                · intro pc hpc
                  simp only [stepEvents] at hpc
                  rw [writesOf_append, makedirs_writesOf] at hpc
                  simp [writesOf] at hpc
                  exact ⟨a, body, rfl, hpc⟩
                · intro p hp
                  simp only [stepFS]
                  rw [lookupFile_setFile_ne _ (hne p hp), lookupFile_makedirs]
            | error e =>
                cases hnet2 : net (fallbackUrl b a) with
                | ok body =>
                    rw [processAsset_download_fallback net outDir b a e body fs
                      hex' hnet hnet2]
                    refine ⟨?_, ?_, ?_⟩
                    · simp only [stepEvents]
                      rw [deletesOf_append, makedirs_deletesOf]
                      rfl
                    · intro pc hpc
                      simp only [stepEvents] at hpc
                      rw [writesOf_append, makedirs_writesOf] at hpc
                      simp [writesOf] at hpc
                      exact ⟨a, body, rfl, hpc⟩
                    · intro p hp
                      simp only [stepFS]
                      rw [lookupFile_setFile_ne _ (hne p hp), lookupFile_makedirs]
                | error e2 =>
                    rw [processAsset_download_fail net outDir b a e e2 fs
                      hex' hnet hnet2]
                    refine ⟨?_, ?_, ?_⟩
                    · simp only [stepEvents]
                      rw [deletesOf_append, makedirs_deletesOf]
                      rfl
                    · intro pc hpc
                      simp only [stepEvents] at hpc
                      rw [writesOf_append, makedirs_writesOf] at hpc
                      simp [writesOf] at hpc
                    · intro p hp
                      simp [stepFS, lookupFile_makedirs]
        | null => rw [processAsset_base_nonstr net outDir _ a fs
            (fun s hs => JValue.noConfusion hs) hex']
                  exact ⟨by simpa [stepEvents] using makedirs_deletesOf fs _,
                    fun pc hpc => by simp [stepEvents, makedirs_writesOf] at hpc,
                    fun p hp => by simp [stepFS, lookupFile_makedirs]⟩
        | bool c => rw [processAsset_base_nonstr net outDir _ a fs
            (fun s hs => JValue.noConfusion hs) hex']
                    exact ⟨by simpa [stepEvents] using makedirs_deletesOf fs _,
                      fun pc hpc => by simp [stepEvents, makedirs_writesOf] at hpc,
                      fun p hp => by simp [stepFS, lookupFile_makedirs]⟩
        | num n => rw [processAsset_base_nonstr net outDir _ a fs
            (fun s hs => JValue.noConfusion hs) hex']
                   exact ⟨by simpa [stepEvents] using makedirs_deletesOf fs _,
                     fun pc hpc => by simp [stepEvents, makedirs_writesOf] at hpc,
                     fun p hp => by simp [stepFS, lookupFile_makedirs]⟩
        | arr items => rw [processAsset_base_nonstr net outDir _ a fs
            (fun s hs => JValue.noConfusion hs) hex']
                       exact ⟨by simpa [stepEvents] using makedirs_deletesOf fs _,
                         fun pc hpc => by simp [stepEvents, makedirs_writesOf] at hpc,
                         fun p hp => by simp [stepFS, lookupFile_makedirs]⟩
        | obj fields => rw [processAsset_base_nonstr net outDir _ a fs
            (fun s hs => JValue.noConfusion hs) hex']
                        exact ⟨by simpa [stepEvents] using makedirs_deletesOf fs _,
                          fun pc hpc => by simp [stepEvents, makedirs_writesOf] at hpc,
                          fun p hp => by simp [stepFS, lookupFile_makedirs]⟩

/-- Frame facts about the whole asset loop, over both outcomes. -/
theorem processAssets_facts (net : Net) (outDir : String) (bu : JValue)
    (items : List JValue) (fs : FS) :
    deletesOf (stepEvents (processAssets net outDir bu items fs)) = [] ∧
    (∀ pc ∈ writesOf (stepEvents (processAssets net outDir bu items fs)),
      ∃ a body, JValue.str a ∈ items ∧ pc = (joinPath outDir a, body)) ∧
    (∀ p, fileExists fs p = true →
      lookupFile (stepFS (processAssets net outDir bu items fs)) p = lookupFile fs p) := by
  induction items generalizing fs with
  | nil => simp [processAssets, stepEvents, stepFS, writesOf, deletesOf]
  | cons v rest ih =>
      obtain ⟨hd, hw, hpres⟩ := processAsset_facts net outDir bu v fs
      simp only [processAssets]
      cases hv : processAsset net outDir bu v fs with
      | fatal fs1 evs1 =>
          rw [hv] at hd hw hpres
          simp only [stepEvents, stepFS] at hd hw hpres
          dsimp only
          refine ⟨hd, ?_, hpres⟩
          intro pc hpc
          obtain ⟨a, body, hva, hpc2⟩ := hw pc hpc
          exact ⟨a, body, by rw [hva]; exact List.mem_cons_self _ _, hpc2⟩
      | ok fs1 evs1 =>
          rw [hv] at hd hw hpres
          simp only [stepEvents, stepFS] at hd hw hpres
          obtain ⟨ihd, ihw, ihp⟩ := ih fs1
          have hle := processAsset_ok_le net outDir bu v fs fs1 evs1 hv
          dsimp only
          cases hr : processAssets net outDir bu rest fs1 with
          | ok fs2 evs2 =>
              rw [hr] at ihd ihw ihp
              simp only [stepEvents, stepFS] at ihd ihw ihp
              try rw [hr]
              simp only [stepEvents, stepFS]
              refine ⟨?_, ?_, ?_⟩
              · rw [deletesOf_append, hd, ihd]
                rfl
              · intro pc hpc
                rw [writesOf_append] at hpc
                rcases List.mem_append.mp hpc with hpc1 | hpc2
                · obtain ⟨a, body, hva, hpceq⟩ := hw pc hpc1
                  exact ⟨a, body, by rw [hva]; exact List.mem_cons_self _ _, hpceq⟩
                · obtain ⟨a, body, hmem, hpceq⟩ := ihw pc hpc2
                  exact ⟨a, body, List.mem_cons_of_mem _ hmem, hpceq⟩
              · intro p hp
                rw [ihp p (hle.1 p hp), hpres p hp]
          | fatal fs2 evs2 =>
              rw [hr] at ihd ihw ihp
              simp only [stepEvents, stepFS] at ihd ihw ihp
              try rw [hr]
              simp only [stepEvents, stepFS]
              refine ⟨?_, ?_, ?_⟩
              · rw [deletesOf_append, hd, ihd]
                rfl
              · intro pc hpc
                rw [writesOf_append] at hpc
                rcases List.mem_append.mp hpc with hpc1 | hpc2
                · obtain ⟨a, body, hva, hpceq⟩ := hw pc hpc1
                  exact ⟨a, body, by rw [hva]; exact List.mem_cons_self _ _, hpceq⟩
                · obtain ⟨a, body, hmem, hpceq⟩ := ihw pc hpc2
                  exact ⟨a, body, List.mem_cons_of_mem _ hmem, hpceq⟩
              · intro p hp
                rw [ihp p (hle.1 p hp), hpres p hp]

/-- After a successful pass of the loop, every asset is a string and its
destination file or directory exists. -/
theorem processAssets_ok_allExists (net : Net) (outDir : String) (bu : JValue)
    (items : List JValue) (fs fs' : FS) (evs : List Event)
    (h : processAssets net outDir bu items fs = StepResult.ok fs' evs) :
    ∀ v ∈ items, ∃ a, v = JValue.str a ∧
      pathExists fs' (joinPath outDir a) = true := by
  induction items generalizing fs evs with
  | nil => intro v hv; exact absurd hv (List.not_mem_nil v)
  | cons w rest ih =>
      simp only [processAssets] at h
      cases hv : processAsset net outDir bu w fs with
      | fatal fs1 evs1 => rw [hv] at h; exact StepResult.noConfusion h
      | ok fs1 evs1 =>
          rw [hv] at h
          dsimp only at h
          cases hr : processAssets net outDir bu rest fs1 with
          | fatal fs2 evs2 => rw [hr] at h; exact StepResult.noConfusion h
          | ok fs2 evs2 =>
              rw [hr] at h
              cases h
              have hrle := processAssets_ok_le net outDir bu rest fs1 _ _ hr
              intro v hvmem
              rcases List.mem_cons.mp hvmem with rfl | hvrest
              · -- the head asset: it must be a string, and its dest exists in fs1
                cases v with
                | str a =>
                    refine ⟨a, rfl, ?_⟩
                    by_cases hex : pathExists (makedirs fs (dirname (joinPath outDir a))).1
                      (joinPath outDir a) = true
                    · rw [processAsset_skip net outDir bu a fs hex] at hv
                      cases hv
                      exact pathExists_mono hrle hex
                    · have hex' : pathExists (makedirs fs (dirname (joinPath outDir a))).1
                          (joinPath outDir a) = false := by simpa using hex
                      cases bu with
                      | str b =>
                          cases hnet : net (primaryUrl b a) with
                          | ok body =>
                              rw [processAsset_download_primary net outDir b a body fs
                                hex' hnet] at hv
                              cases hv
                              refine pathExists_mono hrle ?_
                              simp [pathExists, fileExists_setFile_self]
                          | error e =>
                              cases hnet2 : net (fallbackUrl b a) with
                              | ok body =>
                                  rw [processAsset_download_fallback net outDir b a e body fs
                                    hex' hnet hnet2] at hv
                                  cases hv
                                  refine pathExists_mono hrle ?_
                                  simp [pathExists, fileExists_setFile_self]
                              | error e2 =>
                                  rw [processAsset_download_fail net outDir b a e e2 fs
                                    hex' hnet hnet2] at hv
                                  exact StepResult.noConfusion hv
                      | null => rw [processAsset_base_nonstr net outDir _ a fs
                          (fun s hs => JValue.noConfusion hs) hex'] at hv
                                exact StepResult.noConfusion hv
                      | bool c => rw [processAsset_base_nonstr net outDir _ a fs
                          (fun s hs => JValue.noConfusion hs) hex'] at hv
                                  exact StepResult.noConfusion hv
                      | num n => rw [processAsset_base_nonstr net outDir _ a fs
                          (fun s hs => JValue.noConfusion hs) hex'] at hv
                                 exact StepResult.noConfusion hv
                      | arr its => rw [processAsset_base_nonstr net outDir _ a fs
                          (fun s hs => JValue.noConfusion hs) hex'] at hv
                                   exact StepResult.noConfusion hv
                      | obj flds => rw [processAsset_base_nonstr net outDir _ a fs
                          (fun s hs => JValue.noConfusion hs) hex'] at hv
                                    exact StepResult.noConfusion hv
                | null => rw [processAsset_asset_nonstr net outDir bu _ fs
                    (fun s hs => JValue.noConfusion hs)] at hv
                          exact StepResult.noConfusion hv
                | bool c => rw [processAsset_asset_nonstr net outDir bu _ fs
                    (fun s hs => JValue.noConfusion hs)] at hv
                            exact StepResult.noConfusion hv
                | num n => rw [processAsset_asset_nonstr net outDir bu _ fs
                    (fun s hs => JValue.noConfusion hs)] at hv
                           exact StepResult.noConfusion hv
                | arr its => rw [processAsset_asset_nonstr net outDir bu _ fs
                    (fun s hs => JValue.noConfusion hs)] at hv
                             exact StepResult.noConfusion hv
                | obj flds => rw [processAsset_asset_nonstr net outDir bu _ fs
                    (fun s hs => JValue.noConfusion hs)] at hv
                              exact StepResult.noConfusion hv
              · exact ih fs1 evs2 hr v hvrest

/-- When every asset's destination already exists, the loop succeeds and
issues no request and no write. -/
theorem processAssets_skipAll (net : Net) (outDir : String) (bu : JValue)
    (items : List JValue) (fs : FS)
    (h : ∀ v ∈ items, ∃ a, v = JValue.str a ∧
      pathExists fs (joinPath outDir a) = true) :
    ∃ fs' evs, processAssets net outDir bu items fs = StepResult.ok fs' evs ∧
      requestUrls evs = [] ∧ writesOf evs = [] := by
  induction items generalizing fs with
  | nil => exact ⟨fs, [], rfl, rfl, rfl⟩
  | cons v rest ih =>
      obtain ⟨a, rfl, hpe⟩ := h v (List.mem_cons_self _ _)
      have hex : pathExists (makedirs fs (dirname (joinPath outDir a))).1
          (joinPath outDir a) = true :=
        pathExists_mono (fsle_makedirs fs _) hpe
      have hrest : ∀ v ∈ rest, ∃ aw, v = JValue.str aw ∧
          pathExists (makedirs fs (dirname (joinPath outDir a))).1
            (joinPath outDir aw) = true := by
        intro w hw
        obtain ⟨aw, hwa, hwe⟩ := h w (List.mem_cons_of_mem _ hw)
        exact ⟨aw, hwa, pathExists_mono (fsle_makedirs fs _) hwe⟩
      obtain ⟨fs', evs, hrun, hreq, hwr⟩ :=
        ih (makedirs fs (dirname (joinPath outDir a))).1 hrest
      refine ⟨fs', (makedirs fs (dirname (joinPath outDir a))).2 ++ evs, ?_, ?_, ?_⟩
      · simp only [processAssets]
        rw [processAsset_skip net outDir bu a fs hex]
        dsimp only
        rw [hrun]
      · rw [requestUrls_append, makedirs_requestUrls, hreq]
        rfl
      · rw [writesOf_append, makedirs_writesOf, hwr]
        rfl

/-! ### Run-level lemmas -/

theorem lookupFile_setFile_self (fs : FS) (p c : String) :
    lookupFile (setFile fs p c) p = some c := by
  simp [lookupFile, setFile]

theorem fileExists_ensureDir (fs : FS) (q p : String) :
    fileExists (ensureDir fs q).1 p = fileExists fs p := by
  unfold ensureDir
  split
  · rfl
  · exact fileExists_makedirs fs q p

theorem lookupFile_ensureDir (fs : FS) (q p : String) :
    lookupFile (ensureDir fs q).1 p = lookupFile fs p := by
  unfold ensureDir
  split
  · rfl
  · exact lookupFile_makedirs fs q p

theorem requestsOf_append (a b : List Event) :
    requestsOf (a ++ b) = requestsOf a ++ requestsOf b := by
  simp [requestsOf]

theorem mkdirOne_requestsOf (st : FS × List Event) (q : String) :
    requestsOf (mkdirOne st q).2 = requestsOf st.2 := by
  unfold mkdirOne
  split
  · rfl
  · simp [requestsOf]

theorem makedirs_requestsOf (fs : FS) (p : String) :
    requestsOf (makedirs fs p).2 = [] := by
  unfold makedirs
  have haux : ∀ (qs : List String) (st : FS × List Event),
      requestsOf ((qs.foldl mkdirOne st).2) = requestsOf st.2 := by
    intro qs
    induction qs with
    | nil => intro st; rfl
    | cons q rest ih => intro st; rw [List.foldl_cons, ih, mkdirOne_requestsOf]
  rw [haux]
  rfl

theorem run_cfg_error_eq (net : Net) (fs0 : FS) (outDir cfgPath e : String) :
    run net fs0 outDir cfgPath (Except.error e) =
      ⟨(ensureDir fs0 outDir).1,
       (ensureDir fs0 outDir).2 ++
         [Event.print ("Failed to load " ++ cfgPath ++ ": " ++ e)], 1⟩ := by
  rfl

theorem run_nondict_eq (net : Net) (fs0 : FS) (outDir cfgPath : String)
    (v : JValue) (hv : ∀ flds, v ≠ JValue.obj flds) :
    run net fs0 outDir cfgPath (Except.ok v) =
      ⟨(ensureDir fs0 outDir).1, (ensureDir fs0 outDir).2, 1⟩ := by
  cases v with
  | obj flds => exact absurd rfl (hv flds)
  | null => rfl
  | bool b => rfl
  | num n => rfl
  | str s => rfl
  | arr items => rfl

theorem run_invalid_eq (net : Net) (fs0 : FS) (outDir cfgPath : String)
    (fields : List (String × JValue)) (h : configValid fields = false) :
    run net fs0 outDir cfgPath (Except.ok (JValue.obj fields)) =
      ⟨(ensureDir fs0 outDir).1,
       (ensureDir fs0 outDir).2 ++
         [Event.print "Invalid configuration in launcher-config.json"], 1⟩ := by
  unfold configValid at h
  cases hbu : dictGet fields urlKey with
  | none =>
      cases hav : (dictGet fields assetsKey).getD (JValue.arr []) <;>
        simp [run, hbu, hav]
  | some bu =>
      cases hav : (dictGet fields assetsKey).getD (JValue.arr []) with
      | arr items =>
          rw [hbu, hav] at h
          dsimp only at h
          simp [run, hbu, hav, h]
      | null => simp [run, hbu, hav]
      | bool b => simp [run, hbu, hav]
      | num n => simp [run, hbu, hav]
      | str s => simp [run, hbu, hav]
      | obj flds => simp [run, hbu, hav]

theorem run_ok_eq (net : Net) (fs0 : FS) (outDir cfgPath : String)
    (fields : List (String × JValue)) (bu : JValue) (items : List JValue)
    (hbu : dictGet fields urlKey = some bu)
    (hav : (dictGet fields assetsKey).getD (JValue.arr []) = JValue.arr items)
    (ht : jtruthy bu = true) :
    run net fs0 outDir cfgPath (Except.ok (JValue.obj fields)) =
      match processAssets net outDir bu items (ensureDir fs0 outDir).1 with
      | StepResult.ok fs2 evs2 =>
          ⟨fs2, (ensureDir fs0 outDir).2 ++ evs2 ++
            [Event.print "All launcher assets are up-to-date."], 0⟩
      | StepResult.fatal fs2 evs2 =>
          ⟨fs2, (ensureDir fs0 outDir).2 ++ evs2, 1⟩ := by
  simp only [run, hbu, hav, ht, if_true]

/-- Inversion of a run that exited 0: the config was a valid object and the
asset loop succeeded. -/
theorem run_exit0_inversion (net : Net) (fs0 : FS) (outDir cfgPath : String)
    (cfg : Except String JValue)
    (h : (run net fs0 outDir cfgPath cfg).exitCode = 0) :
    ∃ fields bu items fs2 evs2,
      cfg = Except.ok (JValue.obj fields) ∧
      dictGet fields urlKey = some bu ∧
      (dictGet fields assetsKey).getD (JValue.arr []) = JValue.arr items ∧
      jtruthy bu = true ∧
      processAssets net outDir bu items (ensureDir fs0 outDir).1 =
        StepResult.ok fs2 evs2 ∧
      (run net fs0 outDir cfgPath cfg).fs = fs2 := by
  cases cfg with
  | error e => rw [run_cfg_error_eq] at h; simp at h
  | ok v =>
      cases v with
      | null => rw [run_nondict_eq net fs0 outDir cfgPath _
          (fun flds hf => JValue.noConfusion hf)] at h
                simp at h
      | bool b => rw [run_nondict_eq net fs0 outDir cfgPath _
          (fun flds hf => JValue.noConfusion hf)] at h
                  simp at h
      | num n => rw [run_nondict_eq net fs0 outDir cfgPath _
          (fun flds hf => JValue.noConfusion hf)] at h
                 simp at h
      | str s => rw [run_nondict_eq net fs0 outDir cfgPath _
          (fun flds hf => JValue.noConfusion hf)] at h
                 simp at h
      | arr its => rw [run_nondict_eq net fs0 outDir cfgPath _
          (fun flds hf => JValue.noConfusion hf)] at h
                   simp at h
      | obj fields =>
          cases hbu : dictGet fields urlKey with
          | none =>
              cases hav : (dictGet fields assetsKey).getD (JValue.arr []) <;>
                simp [run, hbu, hav] at h
          | some bu =>
              cases hav : (dictGet fields assetsKey).getD (JValue.arr []) with
              | arr items =>
                  by_cases ht : jtruthy bu = true
                  · cases hres : processAssets net outDir bu items
                        (ensureDir fs0 outDir).1 with
                    | fatal fs2 evs2 => simp [run, hbu, hav, ht, hres] at h
                    | ok fs2 evs2 =>
                        refine ⟨fields, bu, items, fs2, evs2, rfl, hbu, hav, ht,
                          hres, ?_⟩
                        simp [run, hbu, hav, ht, hres]
                  · have ht' : jtruthy bu = false := by simpa using ht
                    simp [run, hbu, hav, ht'] at h
              | null => simp [run, hbu, hav] at h
              | bool b => simp [run, hbu, hav] at h
              | num n => simp [run, hbu, hav] at h
              | str s => simp [run, hbu, hav] at h
              | obj flds => simp [run, hbu, hav] at h

/-! ### Trailing-slash lemmas -/

theorem dropWhile_slash_replicate (n : Nat) (l : List Char) :
    (List.replicate n '/' ++ l).dropWhile (fun c => c = '/') =
      l.dropWhile (fun c => c = '/') := by
  induction n with
  | zero => rfl
  | succ k ih =>
      rw [List.replicate_succ, List.cons_append, List.dropWhile_cons]
      simp [ih]

theorem rstripSlash_append_slashes (c : String) (n : Nat) :
    rstripSlash (c ++ String.mk (List.replicate n '/')) = rstripSlash c := by
  unfold rstripSlash
  congr 1
  show ((c.data ++ List.replicate n '/').reverse.dropWhile (fun ch => ch = '/')).reverse = _
  rw [List.reverse_append, List.reverse_replicate, dropWhile_slash_replicate]

/-! ### Claim theorems -/

/-- C7: base_url values that differ only in trailing slash characters (both
being some common string followed by zero or more trailing `/`) produce
identical primary and fallback request URLs for every asset, because the
syncer strips trailing slashes with `rstrip('/')` before building URLs. -/
theorem trailing_slash_normalization (c a : String) (n m : Nat) :
    primaryUrl (c ++ String.mk (List.replicate n '/')) a =
      primaryUrl (c ++ String.mk (List.replicate m '/')) a ∧
    fallbackUrl (c ++ String.mk (List.replicate n '/')) a =
      fallbackUrl (c ++ String.mk (List.replicate m '/')) a := by
  unfold primaryUrl fallbackUrl
  rw [rstripSlash_append_slashes, rstripSlash_append_slashes]
  exact ⟨rfl, rfl⟩

/-- C10: when the configuration has a truthy string base_url but omits the
`public_launcher_assets` key entirely, the asset list defaults to the empty
list: the run issues zero requests, writes no files, prints the completion
line, and exits 0. -/
theorem assets_key_absent_defaults_empty (net : Net) (fs0 : FS)
    (outDir cfgPath u : String) (fields : List (String × JValue))
    (hbu : dictGet fields urlKey = some (JValue.str u))
    (hu : u ≠ "")
    (ha : dictGet fields assetsKey = none) :
    (run net fs0 outDir cfgPath (Except.ok (JValue.obj fields))).exitCode = 0 ∧
    requestUrls (run net fs0 outDir cfgPath (Except.ok (JValue.obj fields))).events = [] ∧
    writesOf (run net fs0 outDir cfgPath (Except.ok (JValue.obj fields))).events = [] ∧
    Event.print "All launcher assets are up-to-date." ∈
      (run net fs0 outDir cfgPath (Except.ok (JValue.obj fields))).events := by
  have hav : (dictGet fields assetsKey).getD (JValue.arr []) = JValue.arr [] := by
    rw [ha]; rfl
  have ht : jtruthy (JValue.str u) = true := by simp [jtruthy, hu]
  have hrun : run net fs0 outDir cfgPath (Except.ok (JValue.obj fields)) =
      ⟨(ensureDir fs0 outDir).1,
       (ensureDir fs0 outDir).2 ++ [] ++
         [Event.print "All launcher assets are up-to-date."], 0⟩ := by
    rw [run_ok_eq net fs0 outDir cfgPath fields (JValue.str u) [] hbu hav ht]
    rfl
  rw [hrun]
  refine ⟨rfl, ?_, ?_, ?_⟩
  · dsimp only
    rw [requestUrls_append, requestUrls_append, ensureDir_requestUrls]
    rfl
  · dsimp only
    rw [writesOf_append, writesOf_append, ensureDir_writesOf]
    rfl
  · dsimp only
    exact List.mem_append_right _ (List.mem_singleton.mpr rfl)

/-- Witness for C10 at a concrete input. -/
theorem assets_key_absent_defaults_empty_witness :
    (run (fun _ => Except.error "offline") ⟨[], []⟩ "out" "launcher-config.json"
        (Except.ok (JValue.obj [(urlKey, JValue.str "https://h/a")]))).exitCode = 0 ∧
    requestUrls (run (fun _ => Except.error "offline") ⟨[], []⟩ "out" "launcher-config.json"
        (Except.ok (JValue.obj [(urlKey, JValue.str "https://h/a")]))).events = [] ∧
    writesOf (run (fun _ => Except.error "offline") ⟨[], []⟩ "out" "launcher-config.json"
        (Except.ok (JValue.obj [(urlKey, JValue.str "https://h/a")]))).events = [] ∧
    Event.print "All launcher assets are up-to-date." ∈
      (run (fun _ => Except.error "offline") ⟨[], []⟩ "out" "launcher-config.json"
        (Except.ok (JValue.obj [(urlKey, JValue.str "https://h/a")]))).events :=
  assets_key_absent_defaults_empty (fun _ => Except.error "offline") ⟨[], []⟩
    "out" "launcher-config.json" "https://h/a" [(urlKey, JValue.str "https://h/a")]
    rfl (by decide) rfl

/-- C9: the output directory is created before the configuration is read or
validated, so a run that fails fatally because the config is missing or
unparseable (load error), not a JSON object, or invalid, still leaves the
output directory created. -/
theorem outdir_created_before_config (net : Net) (fs0 : FS)
    (outDir cfgPath : String) (cfg : Except String JValue)
    (h0 : pathExists fs0 outDir = false) (hne : outDir ≠ "")
    (hbad : (∃ e, cfg = Except.error e) ∨
            (∃ v, cfg = Except.ok v ∧ ∀ flds, v ≠ JValue.obj flds) ∨
            (∃ flds, cfg = Except.ok (JValue.obj flds) ∧ configValid flds = false)) :
    (run net fs0 outDir cfgPath cfg).exitCode = 1 ∧
    dirExists (run net fs0 outDir cfgPath cfg).fs outDir = true := by
  have hdir : dirExists (ensureDir fs0 outDir).1 outDir = true := by
    have hmk := makedirs_creates_self fs0 outDir hne
    simp [ensureDir, h0]
    simp at hmk
    exact hmk
  rcases hbad with ⟨e, rfl⟩ | ⟨v, rfl, hv⟩ | ⟨flds, rfl, hcv⟩
  · rw [run_cfg_error_eq]
    exact ⟨rfl, hdir⟩
  · rw [run_nondict_eq net fs0 outDir cfgPath v hv]
    exact ⟨rfl, hdir⟩
  · rw [run_invalid_eq net fs0 outDir cfgPath flds hcv]
    exact ⟨rfl, hdir⟩

/-- Witness for C9 at a concrete input. -/
theorem outdir_created_before_config_witness :
    (run (fun _ => Except.error "offline") ⟨[], []⟩ "out" "launcher-config.json"
      (Except.error "No such file or directory")).exitCode = 1 ∧
    dirExists (run (fun _ => Except.error "offline") ⟨[], []⟩ "out" "launcher-config.json"
      (Except.error "No such file or directory")).fs "out" = true :=
  outdir_created_before_config (fun _ => Except.error "offline") ⟨[], []⟩
    "out" "launcher-config.json" (Except.error "No such file or directory")
    (by decide) (by decide)
    (Or.inl ⟨"No such file or directory", rfl⟩)

/-- C2 counterexample: a config with a valid base_url and NO assets key does
not abort — it exits 0 — contradicting the claim that an absent `assets`
makes the whole operation abort fatally. -/
theorem assets_absent_no_abort_counterexample :
    (run (fun _ => Except.error "offline") ⟨[], []⟩ "outdir" "launcher-config.json"
      (Except.ok (JValue.obj [(urlKey, JValue.str "https://h/b")]))).exitCode = 0 := by
  rfl

/-- C2 (amended): if base_url is absent or the empty string, or the assets
key is present with a non-sequence value, the run aborts fatally (exit 1)
before any network activity and without writing any file.  (An absent assets
key instead defaults to the empty list and the run succeeds.) -/
theorem invalid_config_aborts_before_network (net : Net) (fs0 : FS)
    (outDir cfgPath : String) (fields : List (String × JValue))
    (hbad : dictGet fields urlKey = none ∨
            dictGet fields urlKey = some (JValue.str "") ∨
            (∃ v, dictGet fields assetsKey = some v ∧ isArr v = false)) :
    (run net fs0 outDir cfgPath (Except.ok (JValue.obj fields))).exitCode = 1 ∧
    requestUrls (run net fs0 outDir cfgPath (Except.ok (JValue.obj fields))).events = [] ∧
    writesOf (run net fs0 outDir cfgPath (Except.ok (JValue.obj fields))).events = [] := by
  have hcv : configValid fields = false := by
    unfold configValid
    rcases hbad with hbu | hbu | ⟨v, hva, hvna⟩
    · rw [hbu]
    · rw [hbu]
      cases (dictGet fields assetsKey).getD (JValue.arr []) <;> rfl
    · rw [hva]
      cases hbu2 : dictGet fields urlKey with
      | none => cases v <;> rfl
      | some bu =>
          cases v with
          | arr its => simp [isArr] at hvna
          | null => rfl
          | bool b => rfl
          | num n => rfl
          | str s => rfl
          | obj flds => rfl
  rw [run_invalid_eq net fs0 outDir cfgPath fields hcv]
  refine ⟨rfl, ?_, ?_⟩
  · dsimp only
    rw [requestUrls_append, ensureDir_requestUrls]
    rfl
  · dsimp only
    rw [writesOf_append, ensureDir_writesOf]
    rfl

/-- Witness for C2 (amended) at a concrete input: assets present as a number. -/
theorem invalid_config_aborts_before_network_witness :
    (run (fun _ => Except.error "offline") ⟨[], []⟩ "out" "launcher-config.json"
      (Except.ok (JValue.obj [(urlKey, JValue.str "https://h/a"),
        (assetsKey, JValue.num 3)]))).exitCode = 1 ∧
    requestUrls (run (fun _ => Except.error "offline") ⟨[], []⟩ "out" "launcher-config.json"
      (Except.ok (JValue.obj [(urlKey, JValue.str "https://h/a"),
        (assetsKey, JValue.num 3)]))).events = [] ∧
    writesOf (run (fun _ => Except.error "offline") ⟨[], []⟩ "out" "launcher-config.json"
      (Except.ok (JValue.obj [(urlKey, JValue.str "https://h/a"),
        (assetsKey, JValue.num 3)]))).events = [] :=
  invalid_config_aborts_before_network (fun _ => Except.error "offline") ⟨[], []⟩
    "out" "launcher-config.json"
    [(urlKey, JValue.str "https://h/a"), (assetsKey, JValue.num 3)]
    (Or.inr (Or.inr ⟨JValue.num 3, rfl, rfl⟩))

/-- C3 counterexample: base_url = 5 (a JSON number, hence not a non-empty
string) with an empty asset list passes validation and the run exits 0
without the invalid-configuration message, contradicting the claim that any
non-string base_url fails validation fatally. -/
theorem base_url_nonstring_passes_counterexample :
    (run (fun _ => Except.error "offline") ⟨[], []⟩ "out" "launcher-config.json"
      (Except.ok (JValue.obj [(urlKey, JValue.num 5),
        (assetsKey, JValue.arr [])]))).exitCode = 0 ∧
    Event.print "Invalid configuration in launcher-config.json" ∉
      (run (fun _ => Except.error "offline") ⟨[], []⟩ "out" "launcher-config.json"
        (Except.ok (JValue.obj [(urlKey, JValue.num 5),
          (assetsKey, JValue.arr [])]))).events := by
  refine ⟨rfl, ?_⟩
  decide

/-- C3 (amended): validation tests Python truthiness of base_url rather than
being a non-empty string: whenever base_url is absent or falsy the run fails
fatally with the invalid-configuration message, no request and no write; a
truthy non-string base_url instead passes validation. -/
theorem falsy_base_url_aborts (net : Net) (fs0 : FS)
    (outDir cfgPath : String) (fields : List (String × JValue))
    (hbu : truthyOpt (dictGet fields urlKey) = false) :
    (run net fs0 outDir cfgPath (Except.ok (JValue.obj fields))).exitCode = 1 ∧
    Event.print "Invalid configuration in launcher-config.json" ∈
      (run net fs0 outDir cfgPath (Except.ok (JValue.obj fields))).events ∧
    requestUrls (run net fs0 outDir cfgPath (Except.ok (JValue.obj fields))).events = [] ∧
    writesOf (run net fs0 outDir cfgPath (Except.ok (JValue.obj fields))).events = [] := by
  have hcv : configValid fields = false := by
    unfold configValid
    cases hbu2 : dictGet fields urlKey with
    | none => cases (dictGet fields assetsKey).getD (JValue.arr []) <;> rfl
    | some bu =>
        rw [hbu2] at hbu
        simp only [truthyOpt] at hbu
        cases (dictGet fields assetsKey).getD (JValue.arr []) <;> simp [hbu]
  rw [run_invalid_eq net fs0 outDir cfgPath fields hcv]
  refine ⟨rfl, ?_, ?_, ?_⟩
  · dsimp only
    exact List.mem_append_right _ (List.mem_singleton.mpr rfl)
  · dsimp only
    rw [requestUrls_append, ensureDir_requestUrls]
    rfl
  · dsimp only
    rw [writesOf_append, ensureDir_writesOf]
    rfl

/-- Witness for C3 (amended) at a concrete input: base_url key absent. -/
theorem falsy_base_url_aborts_witness :
    (run (fun _ => Except.error "offline") ⟨[], []⟩ "out" "launcher-config.json"
      (Except.ok (JValue.obj [(assetsKey, JValue.arr [])]))).exitCode = 1 ∧
    Event.print "Invalid configuration in launcher-config.json" ∈
      (run (fun _ => Except.error "offline") ⟨[], []⟩ "out" "launcher-config.json"
        (Except.ok (JValue.obj [(assetsKey, JValue.arr [])]))).events ∧
    requestUrls (run (fun _ => Except.error "offline") ⟨[], []⟩ "out" "launcher-config.json"
      (Except.ok (JValue.obj [(assetsKey, JValue.arr [])]))).events = [] ∧
    writesOf (run (fun _ => Except.error "offline") ⟨[], []⟩ "out" "launcher-config.json"
      (Except.ok (JValue.obj [(assetsKey, JValue.arr [])]))).events = [] :=
  falsy_base_url_aborts (fun _ => Except.error "offline") ⟨[], []⟩
    "out" "launcher-config.json" [(assetsKey, JValue.arr [])] rfl

/-- C4: for an asset whose file already exists at its local path (whatever
its content), the per-asset step issues no network request and performs no
write (its trace is only idempotent directory creation), and the loop simply
moves on to the remaining assets. -/
theorem skip_existing_asset (net : Net) (outDir : String) (bu : JValue)
    (a : String) (rest : List JValue) (fs : FS)
    (hf : fileExists fs (joinPath outDir a) = true) :
    processAsset net outDir bu (JValue.str a) fs =
      StepResult.ok (makedirs fs (dirname (joinPath outDir a))).1
        (makedirs fs (dirname (joinPath outDir a))).2 ∧
    requestUrls (makedirs fs (dirname (joinPath outDir a))).2 = [] ∧
    writesOf (makedirs fs (dirname (joinPath outDir a))).2 = [] ∧
    processAssets net outDir bu (JValue.str a :: rest) fs =
      (match processAssets net outDir bu rest
          (makedirs fs (dirname (joinPath outDir a))).1 with
        | StepResult.ok fs2 evs2 =>
            StepResult.ok fs2 ((makedirs fs (dirname (joinPath outDir a))).2 ++ evs2)
        | StepResult.fatal fs2 evs2 =>
            StepResult.fatal fs2 ((makedirs fs (dirname (joinPath outDir a))).2 ++ evs2)) := by
  have hfe : fileExists (makedirs fs (dirname (joinPath outDir a))).1
      (joinPath outDir a) = true := by
    rw [fileExists_makedirs]; exact hf
  have hex : pathExists (makedirs fs (dirname (joinPath outDir a))).1
      (joinPath outDir a) = true := by
    simp [pathExists, hfe]
  have hskip := processAsset_skip net outDir bu a fs hex
  refine ⟨hskip, makedirs_requestUrls fs _, makedirs_writesOf fs _, ?_⟩
  simp only [processAssets]
  rw [hskip]

/-- Witness for C4 at a concrete input: the file pre-exists with arbitrary
content and the network oracle would refuse every request. -/
theorem skip_existing_asset_witness :
    processAsset (fun _ => Except.error "offline") "out" (JValue.str "https://h")
      (JValue.str "x.png") ⟨[("out/x.png", "stale")], ["out"]⟩ =
      StepResult.ok
        (makedirs ⟨[("out/x.png", "stale")], ["out"]⟩
          (dirname (joinPath "out" "x.png"))).1
        (makedirs ⟨[("out/x.png", "stale")], ["out"]⟩
          (dirname (joinPath "out" "x.png"))).2 ∧
    requestUrls (makedirs ⟨[("out/x.png", "stale")], ["out"]⟩
      (dirname (joinPath "out" "x.png"))).2 = [] ∧
    writesOf (makedirs ⟨[("out/x.png", "stale")], ["out"]⟩
      (dirname (joinPath "out" "x.png"))).2 = [] ∧
    processAssets (fun _ => Except.error "offline") "out" (JValue.str "https://h")
      (JValue.str "x.png" :: []) ⟨[("out/x.png", "stale")], ["out"]⟩ =
      (match processAssets (fun _ => Except.error "offline") "out"
          (JValue.str "https://h") []
          (makedirs ⟨[("out/x.png", "stale")], ["out"]⟩
            (dirname (joinPath "out" "x.png"))).1 with
        | StepResult.ok fs2 evs2 =>
            StepResult.ok fs2
              ((makedirs ⟨[("out/x.png", "stale")], ["out"]⟩
                (dirname (joinPath "out" "x.png"))).2 ++ evs2)
        | StepResult.fatal fs2 evs2 =>
            StepResult.fatal fs2
              ((makedirs ⟨[("out/x.png", "stale")], ["out"]⟩
                (dirname (joinPath "out" "x.png"))).2 ++ evs2)) :=
  skip_existing_asset (fun _ => Except.error "offline") "out"
    (JValue.str "https://h") "x.png" [] ⟨[("out/x.png", "stale")], ["out"]⟩
    (by decide)

/-- C8: an asset with nested directory separators leads the per-asset step to
create the destination's intermediate directories (pre-existing directories
are not an error, whatever `fs.dirs` already holds) and to write the
downloaded body at the joined destination path. -/
theorem nested_asset_dirs_and_file (net : Net) (outDir b a body : String)
    (fs : FS)
    (hex : pathExists (makedirs fs (dirname (joinPath outDir a))).1
      (joinPath outDir a) = false)
    (hnet : net (primaryUrl b a) = Except.ok body)
    (hd : dirname (joinPath outDir a) ≠ "") :
    ∃ evs,
      processAsset net outDir (JValue.str b) (JValue.str a) fs =
        StepResult.ok
          (setFile (makedirs fs (dirname (joinPath outDir a))).1
            (joinPath outDir a) body) evs ∧
      dirExists (setFile (makedirs fs (dirname (joinPath outDir a))).1
        (joinPath outDir a) body) (dirname (joinPath outDir a)) = true ∧
      lookupFile (setFile (makedirs fs (dirname (joinPath outDir a))).1
        (joinPath outDir a) body) (joinPath outDir a) = some body := by
  refine ⟨_, processAsset_download_primary net outDir b a body fs hex hnet, ?_, ?_⟩
  · exact makedirs_creates_self fs (dirname (joinPath outDir a)) hd
  · exact lookupFile_setFile_self _ _ _

/-- Witness for C8 at the concrete nested asset of the claim, also recording
the concrete destination and parent-directory paths. -/
theorem nested_asset_dirs_and_file_witness :
    (∃ evs,
      processAsset (fun _ => Except.ok "B") "out" (JValue.str "https://h")
        (JValue.str "icons/sub/app.png") ⟨[], []⟩ =
        StepResult.ok
          (setFile (makedirs ⟨[], []⟩
            (dirname (joinPath "out" "icons/sub/app.png"))).1
            (joinPath "out" "icons/sub/app.png") "B") evs ∧
      dirExists (setFile (makedirs ⟨[], []⟩
        (dirname (joinPath "out" "icons/sub/app.png"))).1
        (joinPath "out" "icons/sub/app.png") "B")
        (dirname (joinPath "out" "icons/sub/app.png")) = true ∧
      lookupFile (setFile (makedirs ⟨[], []⟩
        (dirname (joinPath "out" "icons/sub/app.png"))).1
        (joinPath "out" "icons/sub/app.png") "B")
        (joinPath "out" "icons/sub/app.png") = some "B") ∧
    dirname (joinPath "out" "icons/sub/app.png") = "out/icons/sub" ∧
    joinPath "out" "icons/sub/app.png" = "out/icons/sub/app.png" :=
  ⟨nested_asset_dirs_and_file (fun _ => Except.ok "B") "out" "https://h"
    "icons/sub/app.png" "B" ⟨[], []⟩ (by decide) rfl (by decide), rfl, rfl⟩

/-- C1: when an asset's primary download fails, the syncer issues exactly one
retry — a GET of the fallback URL with the same fixed headers — and when that
also fails the run exits 1 with no file created at the asset's destination
and no later asset processed: the run's final state and trace are those of
the assets before it plus this asset's two requests, independent of `post`. -/
theorem fallback_single_retry (net : Net) (fs0 : FS)
    (outDir cfgPath b a e1 e2 : String) (pre post : List JValue)
    (fsP : FS) (evsP : List Event)
    (hb : b ≠ "")
    (hpre : processAssets net outDir (JValue.str b) pre (ensureDir fs0 outDir).1 =
      StepResult.ok fsP evsP)
    (hex : pathExists (makedirs fsP (dirname (joinPath outDir a))).1
      (joinPath outDir a) = false)
    (h1 : net (primaryUrl b a) = Except.error e1)
    (h2 : net (fallbackUrl b a) = Except.error e2) :
    ∃ evsA,
      processAsset net outDir (JValue.str b) (JValue.str a) fsP =
        StepResult.fatal (makedirs fsP (dirname (joinPath outDir a))).1 evsA ∧
      requestsOf evsA =
        [Event.request (primaryUrl b a) CUSTOM_HEADERS,
         Event.request (fallbackUrl b a) CUSTOM_HEADERS] ∧
      run net fs0 outDir cfgPath
        (Except.ok (JValue.obj [(urlKey, JValue.str b),
          (assetsKey, JValue.arr (pre ++ JValue.str a :: post))])) =
        ⟨(makedirs fsP (dirname (joinPath outDir a))).1,
         (ensureDir fs0 outDir).2 ++ (evsP ++ evsA), 1⟩ ∧
      fileExists (makedirs fsP (dirname (joinPath outDir a))).1
        (joinPath outDir a) = false := by
  have hPA := processAsset_download_fail net outDir b a e1 e2 fsP hex h1 h2
  refine ⟨_, hPA, ?_, ?_, ?_⟩
  · rw [requestsOf_append, makedirs_requestsOf]
    rfl
  · have hbu : dictGet [(urlKey, JValue.str b),
        (assetsKey, JValue.arr (pre ++ JValue.str a :: post))] urlKey =
        some (JValue.str b) := rfl
    have hav : (dictGet [(urlKey, JValue.str b),
        (assetsKey, JValue.arr (pre ++ JValue.str a :: post))] assetsKey).getD
        (JValue.arr []) = JValue.arr (pre ++ JValue.str a :: post) := rfl
    have ht : jtruthy (JValue.str b) = true := by simp [jtruthy, hb]
    rw [run_ok_eq net fs0 outDir cfgPath _ (JValue.str b)
      (pre ++ JValue.str a :: post) hbu hav ht]
    rw [processAssets_append, hpre]
    dsimp only
    simp only [processAssets]
    rw [hPA]
  · simp [pathExists] at hex
    exact hex.1

/-- Witness for C1 at a concrete input: one asset, empty prefix and suffix,
a network that refuses every URL. -/
theorem fallback_single_retry_witness :
    ∃ evsA,
      processAsset (fun _ => Except.error "HTTP Error 404: Not Found") "out"
        (JValue.str "https://h/a") (JValue.str "x.png")
        (ensureDir ⟨[], []⟩ "out").1 =
        StepResult.fatal
          (makedirs (ensureDir ⟨[], []⟩ "out").1
            (dirname (joinPath "out" "x.png"))).1 evsA ∧
      requestsOf evsA =
        [Event.request (primaryUrl "https://h/a" "x.png") CUSTOM_HEADERS,
         Event.request (fallbackUrl "https://h/a" "x.png") CUSTOM_HEADERS] ∧
      run (fun _ => Except.error "HTTP Error 404: Not Found") ⟨[], []⟩ "out"
        "launcher-config.json"
        (Except.ok (JValue.obj [(urlKey, JValue.str "https://h/a"),
          (assetsKey, JValue.arr ([] ++ JValue.str "x.png" :: []))])) =
        ⟨(makedirs (ensureDir ⟨[], []⟩ "out").1
            (dirname (joinPath "out" "x.png"))).1,
         (ensureDir ⟨[], []⟩ "out").2 ++ ([] ++ evsA), 1⟩ ∧
      fileExists (makedirs (ensureDir ⟨[], []⟩ "out").1
        (dirname (joinPath "out" "x.png"))).1 (joinPath "out" "x.png") = false :=
  fallback_single_retry (fun _ => Except.error "HTTP Error 404: Not Found")
    ⟨[], []⟩ "out" "launcher-config.json" "https://h/a" "x.png"
    "HTTP Error 404: Not Found" "HTTP Error 404: Not Found" [] []
    (ensureDir ⟨[], []⟩ "out").1 [] (by decide) rfl (by decide) rfl rfl

/-- C6: if a first run exits 0, a second run from its final filesystem with
the same config — and an arbitrary network, available or not — also exits 0
and performs zero downloads: it issues no request and writes no file. -/
theorem idempotent_second_run (net net2 : Net) (fs0 : FS)
    (outDir p1 p2 : String) (cfg : Except String JValue)
    (h : (run net fs0 outDir p1 cfg).exitCode = 0) :
    (run net2 (run net fs0 outDir p1 cfg).fs outDir p2 cfg).exitCode = 0 ∧
    requestUrls (run net2 (run net fs0 outDir p1 cfg).fs outDir p2 cfg).events = [] ∧
    writesOf (run net2 (run net fs0 outDir p1 cfg).fs outDir p2 cfg).events = [] := by
  obtain ⟨fields, bu, items, fs2, evs2, hcfg, hbu, hav, ht, hres, hfs⟩ :=
    run_exit0_inversion net fs0 outDir p1 cfg h
  subst hcfg
  rw [hfs]
  have hall := processAssets_ok_allExists net outDir bu items _ fs2 evs2 hres
  have hle2 := ensureDir_le fs2 outDir
  have hall2 : ∀ v ∈ items, ∃ a, v = JValue.str a ∧
      pathExists (ensureDir fs2 outDir).1 (joinPath outDir a) = true := by
    intro v hv
    obtain ⟨a, hva, he⟩ := hall v hv
    exact ⟨a, hva, pathExists_mono hle2 he⟩
  obtain ⟨fs3, evs3, hrun2, hreq3, hwr3⟩ :=
    processAssets_skipAll net2 outDir bu items (ensureDir fs2 outDir).1 hall2
  have hrun2eq : run net2 fs2 outDir p2 (Except.ok (JValue.obj fields)) =
      ⟨fs3, (ensureDir fs2 outDir).2 ++ evs3 ++
        [Event.print "All launcher assets are up-to-date."], 0⟩ := by
    rw [run_ok_eq net2 fs2 outDir p2 fields bu items hbu hav ht, hrun2]
  rw [hrun2eq]
  refine ⟨rfl, ?_, ?_⟩
  · dsimp only
    rw [requestUrls_append, requestUrls_append, ensureDir_requestUrls, hreq3]
    rfl
  · dsimp only
    rw [writesOf_append, writesOf_append, ensureDir_writesOf, hwr3]
    rfl

/-- Witness for C6 at a concrete input: the first run downloads one asset,
the second runs with the network down. -/
theorem idempotent_second_run_witness :
    (run (fun _ => Except.error "offline")
      (run (fun _ => Except.ok "B") ⟨[], []⟩ "out" "launcher-config.json"
        (Except.ok (JValue.obj [(urlKey, JValue.str "https://h"),
          (assetsKey, JValue.arr [JValue.str "x.png"])]))).fs
      "out" "launcher-config.json"
      (Except.ok (JValue.obj [(urlKey, JValue.str "https://h"),
        (assetsKey, JValue.arr [JValue.str "x.png"])]))).exitCode = 0 ∧
    requestUrls (run (fun _ => Except.error "offline")
      (run (fun _ => Except.ok "B") ⟨[], []⟩ "out" "launcher-config.json"
        (Except.ok (JValue.obj [(urlKey, JValue.str "https://h"),
          (assetsKey, JValue.arr [JValue.str "x.png"])]))).fs
      "out" "launcher-config.json"
      (Except.ok (JValue.obj [(urlKey, JValue.str "https://h"),
        (assetsKey, JValue.arr [JValue.str "x.png"])]))).events = [] ∧
    writesOf (run (fun _ => Except.error "offline")
      (run (fun _ => Except.ok "B") ⟨[], []⟩ "out" "launcher-config.json"
        (Except.ok (JValue.obj [(urlKey, JValue.str "https://h"),
          (assetsKey, JValue.arr [JValue.str "x.png"])]))).fs
      "out" "launcher-config.json"
      (Except.ok (JValue.obj [(urlKey, JValue.str "https://h"),
        (assetsKey, JValue.arr [JValue.str "x.png"])]))).events = [] :=
  idempotent_second_run (fun _ => Except.ok "B") (fun _ => Except.error "offline")
    ⟨[], []⟩ "out" "launcher-config.json" "launcher-config.json"
    (Except.ok (JValue.obj [(urlKey, JValue.str "https://h"),
      (assetsKey, JValue.arr [JValue.str "x.png"])]))
    (by decide)

/-- C5 counterexample: an absolute asset entry makes `os.path.join` discard
the output directory, so the run writes a file at `/abs/x.png`, whose first
characters are not `out/` — a filesystem write outside `output_dir`. -/
theorem write_outside_outdir_counterexample :
    writesOf (run (fun _ => Except.ok "B") ⟨[], []⟩ "out" "launcher-config.json"
      (Except.ok (JValue.obj [(urlKey, JValue.str "https://h"),
        (assetsKey, JValue.arr [JValue.str "/abs/x.png"])]))).events =
      [("/abs/x.png", "B")] ∧
    headIsSlash "/abs/x.png" = true ∧
    ("/abs/x.png").data.take 4 ≠ ("out/").data := by
  refine ⟨rfl, rfl, ?_⟩
  decide

/-- The frame facts for a run whose trailing events contain no write and no
delete: the whole trace deletes nothing and writes nothing. -/
theorem frame_simple_events (fs0 : FS) (outDir : String) (tail : List Event)
    (hw : writesOf tail = []) (hd : deletesOf tail = []) :
    deletesOf ((ensureDir fs0 outDir).2 ++ tail) = [] ∧
    writesOf ((ensureDir fs0 outDir).2 ++ tail) = [] := by
  rw [writesOf_append, deletesOf_append, ensureDir_writesOf, ensureDir_deletesOf,
    hw, hd]
  exact ⟨rfl, rfl⟩

/-- C5 (amended): provided every asset entry is a string that is a relative
path (no leading `/`) free of `..` components, and the output directory is a
nonempty path without a trailing slash, every file write of a run lands at
`outDir ++ "/" ++ r` with `r` free of `..` components (i.e. under the output
directory); no event ever deletes a file, and every file that existed before
the run keeps its exact content.  An absolute asset entry violates this (see
the counterexample). -/
theorem writes_under_outdir (net : Net) (fs0 : FS) (outDir cfgPath : String)
    (cfg : Except String JValue)
    (hout0 : outDir ≠ "") (hout1 : lastIsSlash outDir = false)
    (hassets : ∀ fields items, cfg = Except.ok (JValue.obj fields) →
      (dictGet fields assetsKey).getD (JValue.arr []) = JValue.arr items →
      ∀ v ∈ items, ∃ a, v = JValue.str a ∧ headIsSlash a = false ∧
        ".." ∉ splitSlash a) :
    deletesOf (run net fs0 outDir cfgPath cfg).events = [] ∧
    (∀ pc ∈ writesOf (run net fs0 outDir cfgPath cfg).events,
      ∃ r, pc.1 = outDir ++ "/" ++ r ∧ ".." ∉ splitSlash r) ∧
    (∀ p, fileExists fs0 p = true →
      lookupFile (run net fs0 outDir cfgPath cfg).fs p = lookupFile fs0 p) := by
  cases cfg with
  | error e =>
      rw [run_cfg_error_eq]
      obtain ⟨hdel, hwr⟩ := frame_simple_events fs0 outDir
        [Event.print ("Failed to load " ++ cfgPath ++ ": " ++ e)] rfl rfl
      refine ⟨hdel, ?_, ?_⟩
      · intro pc hpc
        rw [hwr] at hpc
        exact absurd hpc (List.not_mem_nil pc)
      · intro p hp
        exact lookupFile_ensureDir fs0 outDir p
  | ok v =>
      by_cases hobj : ∃ flds, v = JValue.obj flds
      · obtain ⟨fields, rfl⟩ := hobj
        cases hbu : dictGet fields urlKey with
        | none =>
            have hcv : configValid fields = false := by
              unfold configValid
              rw [hbu]
            rw [run_invalid_eq net fs0 outDir cfgPath fields hcv]
            obtain ⟨hdel, hwr⟩ := frame_simple_events fs0 outDir
              [Event.print "Invalid configuration in launcher-config.json"] rfl rfl
            refine ⟨hdel, ?_, ?_⟩
            · intro pc hpc
              rw [hwr] at hpc
              exact absurd hpc (List.not_mem_nil pc)
            · intro p hp
              exact lookupFile_ensureDir fs0 outDir p
        | some bu =>
            cases hav : (dictGet fields assetsKey).getD (JValue.arr []) with
            | arr items =>
                by_cases ht : jtruthy bu = true
                · -- the validated path: the asset loop runs
                  obtain ⟨hd, hw, hpres⟩ :=
                    processAssets_facts net outDir bu items (ensureDir fs0 outDir).1
                  have hitems := hassets fields items rfl hav
                  rw [run_ok_eq net fs0 outDir cfgPath fields bu items hbu hav ht]
                  cases hres : processAssets net outDir bu items
                      (ensureDir fs0 outDir).1 with
                  | ok fs2 evs2 =>
                      rw [hres] at hd hw hpres
                      simp only [stepEvents, stepFS] at hd hw hpres
                      refine ⟨?_, ?_, ?_⟩
                      · dsimp only
                        rw [deletesOf_append, deletesOf_append,
                          ensureDir_deletesOf, hd]
                        rfl
                      · intro pc hpc
                        dsimp only at hpc
                        rw [writesOf_append, writesOf_append,
                          ensureDir_writesOf] at hpc
                        simp only [List.nil_append, List.mem_append] at hpc
                        rcases hpc with hpc | hpc
                        · obtain ⟨a, body, hmem, hpceq⟩ := hw pc hpc
                          obtain ⟨a2, ha2, hhead, hdots⟩ :=
                            hitems (JValue.str a) hmem
                          have haa : a = a2 := by
                            injection ha2
                          subst haa
                          refine ⟨a, ?_, hdots⟩
                          rw [hpceq]
                          simp [joinPath, hhead, hout0, hout1]
                        · simp [writesOf] at hpc
                      · intro p hp
                        dsimp only
                        rw [hpres p (by rw [fileExists_ensureDir]; exact hp),
                          lookupFile_ensureDir]
                  | fatal fs2 evs2 =>
                      rw [hres] at hd hw hpres
                      simp only [stepEvents, stepFS] at hd hw hpres
                      refine ⟨?_, ?_, ?_⟩
                      · dsimp only
                        rw [deletesOf_append, ensureDir_deletesOf, hd]
                        rfl
                      · intro pc hpc
                        dsimp only at hpc
                        rw [writesOf_append, ensureDir_writesOf] at hpc
                        simp only [List.nil_append] at hpc
                        obtain ⟨a, body, hmem, hpceq⟩ := hw pc hpc
                        obtain ⟨a2, ha2, hhead, hdots⟩ :=
                          hitems (JValue.str a) hmem
                        have haa : a = a2 := by
                          injection ha2
                        subst haa
                        refine ⟨a, ?_, hdots⟩
                        rw [hpceq]
                        simp [joinPath, hhead, hout0, hout1]
                      · intro p hp
                        dsimp only
                        rw [hpres p (by rw [fileExists_ensureDir]; exact hp),
                          lookupFile_ensureDir]
                · have ht' : jtruthy bu = false := by simpa using ht
                  have hcv : configValid fields = false := by
                    unfold configValid
                    rw [hbu, hav]
                    exact ht'
                  rw [run_invalid_eq net fs0 outDir cfgPath fields hcv]
                  obtain ⟨hdel, hwr⟩ := frame_simple_events fs0 outDir
                    [Event.print "Invalid configuration in launcher-config.json"] rfl rfl
                  refine ⟨hdel, ?_, ?_⟩
                  · intro pc hpc
                    rw [hwr] at hpc
                    exact absurd hpc (List.not_mem_nil pc)
                  · intro p hp
                    exact lookupFile_ensureDir fs0 outDir p
            | null =>
                have hcv : configValid fields = false := by
                  unfold configValid
                  rw [hbu, hav]
                rw [run_invalid_eq net fs0 outDir cfgPath fields hcv]
                obtain ⟨hdel, hwr⟩ := frame_simple_events fs0 outDir
                  [Event.print "Invalid configuration in launcher-config.json"] rfl rfl
                refine ⟨hdel, ?_, ?_⟩
                · intro pc hpc
                  rw [hwr] at hpc
                  exact absurd hpc (List.not_mem_nil pc)
                · intro p hp
                  exact lookupFile_ensureDir fs0 outDir p
            | bool b =>
                have hcv : configValid fields = false := by
                  unfold configValid
                  rw [hbu, hav]
                rw [run_invalid_eq net fs0 outDir cfgPath fields hcv]
                obtain ⟨hdel, hwr⟩ := frame_simple_events fs0 outDir
                  [Event.print "Invalid configuration in launcher-config.json"] rfl rfl
                refine ⟨hdel, ?_, ?_⟩
                · intro pc hpc
                  rw [hwr] at hpc
                  exact absurd hpc (List.not_mem_nil pc)
                · intro p hp
                  exact lookupFile_ensureDir fs0 outDir p
            | num n =>
                have hcv : configValid fields = false := by
                  unfold configValid
                  rw [hbu, hav]
                rw [run_invalid_eq net fs0 outDir cfgPath fields hcv]
                obtain ⟨hdel, hwr⟩ := frame_simple_events fs0 outDir
                  [Event.print "Invalid configuration in launcher-config.json"] rfl rfl
                refine ⟨hdel, ?_, ?_⟩
                · intro pc hpc
                  rw [hwr] at hpc
                  exact absurd hpc (List.not_mem_nil pc)
                · intro p hp
                  exact lookupFile_ensureDir fs0 outDir p
            | str s =>
                have hcv : configValid fields = false := by
                  unfold configValid
                  rw [hbu, hav]
                rw [run_invalid_eq net fs0 outDir cfgPath fields hcv]
                obtain ⟨hdel, hwr⟩ := frame_simple_events fs0 outDir
                  [Event.print "Invalid configuration in launcher-config.json"] rfl rfl
                refine ⟨hdel, ?_, ?_⟩
                · intro pc hpc
                  rw [hwr] at hpc
                  exact absurd hpc (List.not_mem_nil pc)
                · intro p hp
                  exact lookupFile_ensureDir fs0 outDir p
            | obj flds2 =>
                have hcv : configValid fields = false := by
                  unfold configValid
                  rw [hbu, hav]
                rw [run_invalid_eq net fs0 outDir cfgPath fields hcv]
                obtain ⟨hdel, hwr⟩ := frame_simple_events fs0 outDir
                  [Event.print "Invalid configuration in launcher-config.json"] rfl rfl
                refine ⟨hdel, ?_, ?_⟩
                · intro pc hpc
                  rw [hwr] at hpc
                  exact absurd hpc (List.not_mem_nil pc)
                · intro p hp
                  exact lookupFile_ensureDir fs0 outDir p
      · have hv : ∀ flds, v ≠ JValue.obj flds := by
          intro flds hvf
          exact hobj ⟨flds, hvf⟩
        rw [run_nondict_eq net fs0 outDir cfgPath v hv]
        refine ⟨ensureDir_deletesOf fs0 outDir, ?_, ?_⟩
        · intro pc hpc
          dsimp only at hpc
          rw [ensureDir_writesOf] at hpc
          exact absurd hpc (List.not_mem_nil pc)
        · intro p hp
          exact lookupFile_ensureDir fs0 outDir p

/-- Witness for C5 (amended) at a concrete input: a nested relative asset. -/
theorem writes_under_outdir_witness :
    deletesOf (run (fun _ => Except.ok "B") ⟨[], []⟩ "out" "launcher-config.json"
      (Except.ok (JValue.obj [(urlKey, JValue.str "https://h"),
        (assetsKey, JValue.arr [JValue.str "icons/app.png"])]))).events = [] ∧
    (∀ pc ∈ writesOf (run (fun _ => Except.ok "B") ⟨[], []⟩ "out" "launcher-config.json"
      (Except.ok (JValue.obj [(urlKey, JValue.str "https://h"),
        (assetsKey, JValue.arr [JValue.str "icons/app.png"])]))).events,
      ∃ r, pc.1 = "out" ++ "/" ++ r ∧ ".." ∉ splitSlash r) ∧
    (∀ p, fileExists ⟨[], []⟩ p = true →
      lookupFile (run (fun _ => Except.ok "B") ⟨[], []⟩ "out" "launcher-config.json"
        (Except.ok (JValue.obj [(urlKey, JValue.str "https://h"),
          (assetsKey, JValue.arr [JValue.str "icons/app.png"])]))).fs p =
        lookupFile ⟨[], []⟩ p) :=
  writes_under_outdir (fun _ => Except.ok "B") ⟨[], []⟩ "out" "launcher-config.json"
    (Except.ok (JValue.obj [(urlKey, JValue.str "https://h"),
      (assetsKey, JValue.arr [JValue.str "icons/app.png"])]))
    (by decide) rfl
    (by
      intro fields items hf hi v hv
      cases hf
      have hi2 : items = [JValue.str "icons/app.png"] := by
        injection hi with hi3
        exact hi3.symm
      subst hi2
      rcases List.mem_singleton.mp hv with rfl
      exact ⟨"icons/app.png", rfl, rfl, by decide⟩)

end FetchAssets
